import Mathlib

/-!
Verification of the in-memory traffic query engine (`vis/backend/data.py`,
class `TrafficData`).

The embedding models one CSV row as a `Row`: `vehicle_id` is a string,
`timestep_time` a rational number, and the coordinates `vehicle_x`,
`vehicle_y` optional rationals (a `none` stands for a null cell in the
source file).  Data frames become lists of rows; the polars filter and
group-by operations used by the code become the corresponding list
operations.  `df.sort` is called without `maintain_order=True`, so polars
only guarantees a permutation that is sorted by the given keys; the load
step is therefore modelled as a relation (`LoadsTo`) rather than a
function.
-/

/-- One data row of the FCD table (a record of the four columns the code
reads; `none` in a coordinate is a null cell). -/
structure Row where
  vehicle_id : String
  timestep_time : ℚ
  vehicle_x : Option ℚ
  vehicle_y : Option ℚ
deriving DecidableEq, Repr

/-- `QueryStats` dataclass from the source. -/
structure QueryStats where
  rows : ℕ
  vehicles : ℕ
  truncated : Bool
  sample_every : ℚ
  max_points : ℤ
deriving DecidableEq, Repr

/-- One returned point of `TrafficData.query` (`{"t", "vehicleId", "lon", "lat"}`). -/
structure Point where
  t : ℚ
  vehicleId : String
  lon : ℚ
  lat : ℚ
deriving DecidableEq, Repr

/-- One returned point of `TrafficData.trajectory` (`{"t", "lon", "lat"}`). -/
structure TPoint where
  t : ℚ
  lon : ℚ
  lat : ℚ
deriving DecidableEq, Repr

/-- Result of `TrafficData.query`: points, sorted distinct vehicle ids, stats. -/
structure QueryResult where
  points : List Point
  vehicleIds : List String
  stats : QueryStats
deriving DecidableEq, Repr

/-- Result of `TrafficData.trajectory` (the geojson duplicates `coords`). -/
structure TrajectoryResult where
  vehicleId : String
  truncated : Bool
  pointCount : ℕ
  coords : List (ℚ × ℚ)
  points : List TPoint
deriving DecidableEq, Repr

/-- Row has both coordinates non-null
(`vehicle_x.is_not_null() & vehicle_y.is_not_null()`). -/
def nnCoords (r : Row) : Bool :=
  r.vehicle_x.isSome && r.vehicle_y.isSome

/-- `TrafficData._apply_time`: keep rows with `time_start ≤ t ≤ time_end`. -/
def apply_time (time_start time_end : ℚ) (q : List Row) : List Row :=
  q.filter (fun r => decide (time_start ≤ r.timestep_time ∧ r.timestep_time ≤ time_end))

/-- Bounding-box predicate of `TrafficData._apply_bbox`: both coordinates
non-null and inside the inclusive box. -/
def inBox (west south east north : ℚ) (r : Row) : Bool :=
  match r.vehicle_x, r.vehicle_y with
  | some x, some y => decide (west ≤ x ∧ x ≤ east ∧ south ≤ y ∧ y ≤ north)
  | _, _ => false

/-- `TrafficData._apply_bbox`: `None` box means no spatial filtering. -/
def apply_bbox (bbox : Option (ℚ × ℚ × ℚ × ℚ)) (q : List Row) : List Row :=
  match bbox with
  | none => q
  | some (west, south, east, north) => q.filter (inBox west south east north)

/-- `TrafficData._apply_ids`: `if not vehicle_ids: return q` catches both
`None` and the empty list. -/
def apply_ids (vehicle_ids : Option (List String)) (q : List Row) : List Row :=
  match vehicle_ids with
  | none => q
  | some ids => if ids = [] then q else q.filter (fun r => decide (r.vehicle_id ∈ ids))

/-- The defensive null-drop `q.filter(x.is_not_null() & y.is_not_null())`. -/
def dropNull (q : List Row) : List Row :=
  q.filter nnCoords

/-- `_bucket` column: `(timestep_time / sample_every).floor().cast(Int64)`. -/
def bucket (sample_every : ℚ) (r : Row) : ℤ :=
  ⌊r.timestep_time / sample_every⌋

/-- Group key of the sampler: `(vehicle_id, _bucket)`. -/
def sampleKey (sample_every : ℚ) (r : Row) : String × ℤ :=
  (r.vehicle_id, bucket sample_every r)

/-- First-occurrence-wins scan underlying
`group_by(["vehicle_id", "_bucket"], maintain_order=True).agg(pl.all().first())`:
one output row per key, the first input row bearing it, in order of first
appearance.  `seen` accumulates the keys already emitted. -/
def dedupFirst (key : Row → String × ℤ) : List Row → List (String × ℤ) → List Row
  | [], _ => []
  | r :: rs, seen =>
    if key r ∈ seen then dedupFirst key rs seen
    else r :: dedupFirst key rs (key r :: seen)

/-- `TrafficData._sample`: pass-through for `sample_every ≤ 0`, otherwise at
most one row per `(vehicle_id, bucket)`, first row of the group retained. -/
def sample (sample_every : ℚ) (q : List Row) : List Row :=
  if sample_every ≤ 0 then q else dedupFirst (sampleKey sample_every) q []

/-- The truncation step shared by `query` and `trajectory`:
`if max_points and max_points > 0 and q.height > max_points: q.head(...)`. -/
def truncate (max_points : ℤ) (q : List Row) : List Row × Bool :=
  if 0 < max_points ∧ max_points < (q.length : ℤ) then
    (q.take max_points.toNat, true)
  else
    (q, false)

/-- Lexicographic order on strings, written on the underlying character
lists (`String.instLT` is definitionally `·.data < ·.data`; the character
lists are used directly so that comparisons evaluate inside the kernel). -/
def strLE (s t : String) : Prop :=
  ¬ t.data < s.data

instance : DecidableRel strLE := fun s t => by
  unfold strLE
  infer_instance

/-- Insert a string into a sorted list of strings (helper for `sorted(...)`). -/
def insertStr (s : String) : List String → List String
  | [] => [s]
  | t :: ts => if strLE s t then s :: t :: ts else t :: insertStr s ts

/-- `sorted(...)` on a list of strings, modelled as insertion sort. -/
def sortStrs : List String → List String
  | [] => []
  | s :: ss => insertStr s (sortStrs ss)

/-- `float(p["vehicle_x"])` etc. after the null drop; the `getD` default is
unreachable because every emitted row has passed `nnCoords`. -/
def toPoint (r : Row) : Point :=
  { t := r.timestep_time
    vehicleId := r.vehicle_id
    lon := r.vehicle_x.getD 0
    lat := r.vehicle_y.getD 0 }

/-- `TrafficData.query`, translated stage by stage from the source. -/
def query (df : List Row) (time_start time_end : ℚ)
    (bbox : Option (ℚ × ℚ × ℚ × ℚ)) (vehicle_ids : Option (List String))
    (max_points : ℤ) (sample_every : ℚ) : QueryResult :=
  let q0 := apply_time time_start time_end df
  let q1 := apply_bbox bbox q0
  let q2 := apply_ids vehicle_ids q1
  let q3 := dropNull q2
  let q4 := sample sample_every q3
  let hit := sortStrs (if 0 < q4.length then (q4.map Row.vehicle_id).dedup else [])
  let tr := truncate max_points q4
  let points := tr.1.map toPoint
  { points := points
    vehicleIds := hit
    stats :=
      { rows := points.length
        vehicles := hit.length
        truncated := tr.2
        sample_every := sample_every
        max_points := max_points } }

/-- `TrafficData.trajectory`: per-vehicle rows, null drop, time filter only
when both bounds are present, then truncation. -/
def trajectory (df : List Row) (vehicle_id : String)
    (time_start time_end : Option ℚ) (max_points : ℤ) : TrajectoryResult :=
  let q0 := df.filter (fun r => decide (r.vehicle_id = vehicle_id))
  let q1 := dropNull q0
  let q2 :=
    match time_start, time_end with
    | some a, some b => apply_time a b q1
    | _, _ => q1
  let tr := truncate max_points q2
  { vehicleId := vehicle_id
    truncated := tr.2
    pointCount := tr.1.length
    coords := tr.1.map (fun r => (r.vehicle_x.getD 0, r.vehicle_y.getD 0))
    points := tr.1.map (fun r => TPoint.mk r.timestep_time (r.vehicle_x.getD 0) (r.vehicle_y.getD 0)) }

/-- A raw CSV source: the header (column names) and the parsed rows. -/
structure CsvSource where
  columns : List String
  rows : List Row
deriving Repr

/-- Load failure: a required column is missing (`ValueError` in the source,
the spec's `SchemaError`). -/
inductive LoadError where
  | SchemaError
deriving DecidableEq, Repr

/-- The deterministic part of `TrafficData._load`: the two schema checks,
then the null-coordinate drop.  The subsequent `df.sort` is relational
(`LoadsTo`). -/
def loadFiltered (src : CsvSource) : Except LoadError (List Row) :=
  if "timestep_time" ∈ src.columns ∧ "vehicle_id" ∈ src.columns then
    if "vehicle_x" ∈ src.columns ∧ "vehicle_y" ∈ src.columns then
      Except.ok (dropNull src.rows)
    else Except.error LoadError.SchemaError
  else Except.error LoadError.SchemaError

/-- Sort key of `df.sort(["vehicle_id", "timestep_time"])`: lexicographic on
vehicle id, then time ascending. -/
def keyLE (a b : Row) : Prop :=
  a.vehicle_id.data < b.vehicle_id.data ∨
    (a.vehicle_id = b.vehicle_id ∧ a.timestep_time ≤ b.timestep_time)

instance : DecidableRel keyLE := fun a b => by
  unfold keyLE
  infer_instance

/-- Semantics of `TrafficData._load`.  `df.sort` is called with the default
`maintain_order=False`, which polars documents as not guaranteeing the
order of equal elements, so any key-sorted permutation of the retained rows
is a possible result. -/
def LoadsTo (src : CsvSource) (res : Except LoadError (List Row)) : Prop :=
  (∀ e, loadFiltered src = Except.error e → res = Except.error e) ∧
  (∀ rows, loadFiltered src = Except.ok rows →
    ∃ out, res = Except.ok out ∧ out.Perm rows ∧ out.Pairwise keyLE)

/-- Summary statistics frozen by `TrafficData.__init__`. -/
structure TableStats where
  min_time : ℚ
  max_time : ℚ
  row_count : ℕ
  vehicle_count : ℕ
deriving DecidableEq, Repr

/-- The statistics block of `__init__`: `float(series.min())`,
`float(series.max())`, height, `n_unique`.  On an empty frame polars
returns null for `min()`/`max()` and the `float(None)` conversion raises,
modelled as `none`. -/
def mkStats (df : List Row) : Option TableStats :=
  match df.map Row.timestep_time with
  | [] => none
  | t :: ts =>
      some { min_time := ts.foldl min t
             max_time := ts.foldl max t
             row_count := df.length
             vehicle_count := (df.map Row.vehicle_id).dedup.length }

/-- Successful construction of a `TrafficData` object: a possible load
result together with its frozen statistics. -/
def InitOf (src : CsvSource) (df : List Row) (st : TableStats) : Prop :=
  LoadsTo src (Except.ok df) ∧ mkStats df = some st

/-- The filtered-and-sampled view of `query`, before truncation (the exact
stage composition of the source: time, bbox, ids, null drop, sample). -/
def pipeline (df : List Row) (time_start time_end : ℚ)
    (bbox : Option (ℚ × ℚ × ℚ × ℚ)) (vehicle_ids : Option (List String))
    (sample_every : ℚ) : List Row :=
  sample sample_every
    (dropNull (apply_ids vehicle_ids (apply_bbox bbox (apply_time time_start time_end df))))

/-- The per-vehicle view of `trajectory`, before truncation. -/
def trajRows (df : List Row) (vehicle_id : String)
    (time_start time_end : Option ℚ) : List Row :=
  match time_start, time_end with
  | some a, some b =>
      apply_time a b (dropNull (df.filter (fun r => decide (r.vehicle_id = vehicle_id))))
  | _, _ => dropNull (df.filter (fun r => decide (r.vehicle_id = vehicle_id)))

/-- The `(vehicleId, time)` sort key of a row. -/
def rowKey (r : Row) : String × ℚ :=
  (r.vehicle_id, r.timestep_time)

/-- Stability of a reordering: for every key, the subsequence of rows bearing
that key is unchanged (equal-key rows keep their relative order). -/
def StableOn (input output : List Row) : Prop :=
  ∀ k : String × ℚ,
    output.filter (fun r => decide (rowKey r = k)) = input.filter (fun r => decide (rowKey r = k))

/-! ### Helper lemmas about the individual stages -/

theorem sample_nonpos {w : ℚ} (h : w ≤ 0) (q : List Row) : sample w q = q := by
  simp [sample, h]

theorem sample_pos {w : ℚ} (h : ¬ w ≤ 0) (q : List Row) :
    sample w q = dedupFirst (sampleKey w) q [] := by
  simp [sample, h]

theorem dedupFirst_sublist (key : Row → String × ℤ) :
    ∀ (q : List Row) (seen : List (String × ℤ)), (dedupFirst key q seen).Sublist q := by
  intro q
  induction q with
  | nil => intro seen; simp [dedupFirst]
  | cons r rs ih =>
    intro seen
    by_cases h : key r ∈ seen
    · simpa [dedupFirst, h] using (ih seen).cons r
    · simpa [dedupFirst, h] using (ih (key r :: seen)).cons₂ r

theorem sample_sublist (w : ℚ) (q : List Row) : (sample w q).Sublist q := by
  by_cases h : w ≤ 0
  · rw [sample_nonpos h]
  · rw [sample_pos h]
    exact dedupFirst_sublist _ q []

theorem mem_dedupFirst {key : Row → String × ℤ} :
    ∀ {q : List Row} {seen : List (String × ℤ)} {r : Row}, r ∈ dedupFirst key q seen →
      key r ∉ seen ∧ q.find? (fun x => decide (key x = key r)) = some r := by
  intro q
  induction q with
  | nil => intro seen r h; simp [dedupFirst] at h
  | cons a as ih =>
    intro seen r h
    by_cases ha : key a ∈ seen
    · rw [dedupFirst, if_pos ha] at h
      obtain ⟨h1, h2⟩ := ih h
      refine ⟨h1, ?_⟩
      rw [List.find?_cons_of_neg]
      · exact h2
      · simp only [decide_eq_true_eq]
        intro hk
        exact h1 (hk ▸ ha)
    · rw [dedupFirst, if_neg ha] at h
      rcases List.mem_cons.1 h with h | h
      · subst h
        refine ⟨ha, ?_⟩
        rw [List.find?_cons_of_pos]
        simp
      · obtain ⟨h1, h2⟩ := ih h
        simp only [List.mem_cons, not_or] at h1
        refine ⟨h1.2, ?_⟩
        rw [List.find?_cons_of_neg, h2]
        simp only [decide_eq_true_eq]
        intro hk
        exact h1.1 (hk ▸ rfl)

theorem dedupFirst_keys_nodup {key : Row → String × ℤ} :
    ∀ (q : List Row) (seen : List (String × ℤ)),
      ((dedupFirst key q seen).map key).Nodup ∧
        ∀ k ∈ (dedupFirst key q seen).map key, k ∉ seen := by
  intro q
  induction q with
  | nil => intro seen; simp [dedupFirst]
  | cons a as ih =>
    intro seen
    by_cases ha : key a ∈ seen
    · rw [dedupFirst, if_pos ha]
      exact ih seen
    · rw [dedupFirst, if_neg ha]
      obtain ⟨ihn, ihs⟩ := ih (key a :: seen)
      simp only [List.map_cons, List.nodup_cons]
      refine ⟨⟨?_, ihn⟩, ?_⟩
      · intro hmem
        have := ihs _ hmem
        simp at this
      · intro k hk
        rcases List.mem_cons.1 hk with hk | hk
        · exact hk ▸ ha
        · have := ihs _ hk
          simp only [List.mem_cons, not_or] at this
          exact this.2

theorem dedupFirst_complete {key : Row → String × ℤ} :
    ∀ (q : List Row) (seen : List (String × ℤ)) (r : Row), r ∈ q → key r ∉ seen →
      ∃ s ∈ dedupFirst key q seen, key s = key r := by
  intro q
  induction q with
  | nil => intro seen r h; simp at h
  | cons a as ih =>
    intro seen r h hseen
    by_cases ha : key a ∈ seen
    · rw [dedupFirst, if_pos ha]
      rcases List.mem_cons.1 h with h | h
      · subst h; exact absurd ha hseen
      · exact ih seen r h hseen
    · rw [dedupFirst, if_neg ha]
      by_cases hk : key r = key a
      · exact ⟨a, List.mem_cons_self a _, hk.symm⟩
      · rcases List.mem_cons.1 h with h | h
        · subst h; exact absurd rfl hk
        · obtain ⟨s, hs, hks⟩ := ih (key a :: seen) r h (by simp [hk, hseen])
          exact ⟨s, List.mem_cons_of_mem a hs, hks⟩

theorem dedupFirst_id_of_nodup {key : Row → String × ℤ} :
    ∀ (q : List Row) (seen : List (String × ℤ)), ((q.map key).Nodup) →
      (∀ k ∈ q.map key, k ∉ seen) → dedupFirst key q seen = q := by
  intro q
  induction q with
  | nil => intro seen _ _; rfl
  | cons a as ih =>
    intro seen hn hs
    have ha : key a ∉ seen := hs (key a) (by simp)
    rw [dedupFirst, if_neg ha]
    simp only [List.map_cons, List.nodup_cons] at hn
    congr 1
    refine ih (key a :: seen) hn.2 ?_
    intro k hk
    simp only [List.mem_cons, not_or]
    exact ⟨fun he => hn.1 (he ▸ hk), hs k (by simp [hk])⟩

theorem truncate_nonpos {mp : ℤ} (h : mp ≤ 0) (q : List Row) : truncate mp q = (q, false) := by
  rw [truncate, if_neg]
  rintro ⟨h1, _⟩
  exact absurd h1 (not_lt.2 h)

theorem truncate_big {mp : ℤ} {q : List Row} (h1 : 0 < mp) (h2 : mp < (q.length : ℤ)) :
    truncate mp q = (q.take mp.toNat, true) := by
  rw [truncate, if_pos ⟨h1, h2⟩]

theorem truncate_small {mp : ℤ} {q : List Row} (_h1 : 0 < mp) (h2 : (q.length : ℤ) ≤ mp) :
    truncate mp q = (q, false) := by
  rw [truncate, if_neg]
  rintro ⟨_, h3⟩
  exact absurd h3 (not_lt.2 h2)

theorem truncate_fst_sublist (mp : ℤ) (q : List Row) : (truncate mp q).1.Sublist q := by
  rw [truncate]
  split
  · exact List.take_sublist _ q
  · exact List.Sublist.refl q

theorem mem_apply_time {ts te : ℚ} {q : List Row} {r : Row} (h : r ∈ apply_time ts te q) :
    r ∈ q ∧ ts ≤ r.timestep_time ∧ r.timestep_time ≤ te := by
  rw [apply_time, List.mem_filter] at h
  exact ⟨h.1, of_decide_eq_true h.2⟩

theorem mem_apply_bbox_some {w s e n : ℚ} {q : List Row} {r : Row}
    (h : r ∈ apply_bbox (some (w, s, e, n)) q) :
    r ∈ q ∧ inBox w s e n r = true := by
  rw [apply_bbox, List.mem_filter] at h
  exact h

theorem mem_apply_ids {ids : List String} {q : List Row} {r : Row}
    (hne : ids ≠ []) (h : r ∈ apply_ids (some ids) q) :
    r ∈ q ∧ r.vehicle_id ∈ ids := by
  rw [apply_ids, if_neg hne, List.mem_filter] at h
  exact ⟨h.1, of_decide_eq_true h.2⟩

theorem mem_apply_ids_iff {ids : List String} {q : List Row} {r : Row} (hne : ids ≠ []) :
    r ∈ apply_ids (some ids) q ↔ r ∈ q ∧ r.vehicle_id ∈ ids := by
  rw [apply_ids, if_neg hne, List.mem_filter]
  simp

theorem mem_dropNull {q : List Row} {r : Row} (h : r ∈ dropNull q) :
    r ∈ q ∧ nnCoords r = true := by
  rw [dropNull, List.mem_filter] at h
  exact h

theorem inBox_eq_true {w s e n : ℚ} {r : Row} (h : inBox w s e n r = true) :
    ∃ x y, r.vehicle_x = some x ∧ r.vehicle_y = some y ∧
      w ≤ x ∧ x ≤ e ∧ s ≤ y ∧ y ≤ n := by
  rcases hx : r.vehicle_x with _ | x
  · rw [inBox, hx] at h
    rcases r.vehicle_y with _ | y <;> simp at h
  · rcases hy : r.vehicle_y with _ | y
    · rw [inBox, hx, hy] at h
      simp at h
    · rw [inBox, hx, hy] at h
      have := of_decide_eq_true h
      exact ⟨x, y, rfl, rfl, this.1, this.2.1, this.2.2.1, this.2.2.2⟩

theorem nnCoords_eq_true {r : Row} (h : nnCoords r = true) :
    ∃ x y, r.vehicle_x = some x ∧ r.vehicle_y = some y := by
  rw [nnCoords, Bool.and_eq_true] at h
  rcases hx : r.vehicle_x with _ | x
  · rw [hx] at h; simp at h
  · rcases hy : r.vehicle_y with _ | y
    · rw [hy] at h; simp at h
    · exact ⟨x, y, rfl, rfl⟩

/-- Everything a row surviving the full `query` filter pipeline satisfies. -/
theorem mem_pipeline {df : List Row} {ts te : ℚ} {bbox : Option (ℚ × ℚ × ℚ × ℚ)}
    {ids : Option (List String)} {se : ℚ} {r : Row}
    (h : r ∈ pipeline df ts te bbox ids se) :
    r ∈ df ∧ (ts ≤ r.timestep_time ∧ r.timestep_time ≤ te) ∧ nnCoords r = true ∧
      (∀ w s e n, bbox = some (w, s, e, n) → inBox w s e n r = true) ∧
      (∀ l, ids = some l → l ≠ [] → r.vehicle_id ∈ l) := by
  rw [pipeline] at h
  have h3 := (sample_sublist se _).subset h
  obtain ⟨h2, hnn⟩ := mem_dropNull h3
  have hids : r ∈ apply_bbox bbox (apply_time ts te df) ∧
      ∀ l, ids = some l → l ≠ [] → r.vehicle_id ∈ l := by
    rcases ids with _ | l
    · exact ⟨h2, by rintro l hl; cases hl⟩
    · by_cases hne : l = []
      · subst hne
        rw [apply_ids, if_pos rfl] at h2
        refine ⟨h2, ?_⟩
        rintro l' hl' hne'
        injection hl' with hl'
        exact absurd hl'.symm hne'
      · obtain ⟨hq, hmem⟩ := mem_apply_ids hne h2
        refine ⟨hq, ?_⟩
        rintro l' hl' _
        injection hl' with hl'
        exact hl' ▸ hmem
  have hbb : r ∈ apply_time ts te df ∧
      ∀ w s e n, bbox = some (w, s, e, n) → inBox w s e n r = true := by
    rcases bbox with _ | b
    · exact ⟨hids.1, by rintro w s e n hb; cases hb⟩
    · obtain ⟨w, s, e, n⟩ := b
      obtain ⟨hq, hbox⟩ := mem_apply_bbox_some hids.1
      refine ⟨hq, ?_⟩
      rintro w' s' e' n' hb
      simp only [Option.some.injEq, Prod.mk.injEq] at hb
      obtain ⟨rfl, rfl, rfl, rfl⟩ := hb
      exact hbox
  obtain ⟨hdf, ht1, ht2⟩ := mem_apply_time hbb.1
  exact ⟨hdf, ⟨ht1, ht2⟩, hnn, hbb.2, hids.2⟩

theorem insertStr_length (s : String) : ∀ l : List String, (insertStr s l).length = l.length + 1 := by
  intro l
  induction l with
  | nil => rfl
  | cons t ts ih =>
    rw [insertStr]
    split
    · rfl
    · simp [ih]

theorem sortStrs_length : ∀ l : List String, (sortStrs l).length = l.length := by
  intro l
  induction l with
  | nil => rfl
  | cons s ss ih => rw [sortStrs, insertStr_length, ih, List.length_cons]

theorem dedup_length_le_of_sublist {l₁ l₂ : List String} (h : l₁.Sublist l₂) :
    l₁.dedup.length ≤ l₂.dedup.length := by
  rw [← List.card_toFinset, ← List.card_toFinset]
  apply Finset.card_le_card
  intro a ha
  rw [List.mem_toFinset] at ha ⊢
  exact h.subset ha

/-- `query` in terms of the staged pipeline and truncation. -/
theorem query_eq (df : List Row) (ts te : ℚ) (bbox : Option (ℚ × ℚ × ℚ × ℚ))
    (ids : Option (List String)) (mp : ℤ) (se : ℚ) :
    query df ts te bbox ids mp se =
      { points := (truncate mp (pipeline df ts te bbox ids se)).1.map toPoint
        vehicleIds := sortStrs (if 0 < (pipeline df ts te bbox ids se).length then
          ((pipeline df ts te bbox ids se).map Row.vehicle_id).dedup else [])
        stats :=
          { rows := ((truncate mp (pipeline df ts te bbox ids se)).1.map toPoint).length
            vehicles := (sortStrs (if 0 < (pipeline df ts te bbox ids se).length then
              ((pipeline df ts te bbox ids se).map Row.vehicle_id).dedup else [])).length
            truncated := (truncate mp (pipeline df ts te bbox ids se)).2
            sample_every := se
            max_points := mp } } := rfl

/-- `trajectory` in terms of the per-vehicle view and truncation. -/
theorem trajectory_eq (df : List Row) (vid : String) (ts te : Option ℚ) (mp : ℤ) :
    trajectory df vid ts te mp =
      { vehicleId := vid
        truncated := (truncate mp (trajRows df vid ts te)).2
        pointCount := (truncate mp (trajRows df vid ts te)).1.length
        coords := (truncate mp (trajRows df vid ts te)).1.map
          (fun r => (r.vehicle_x.getD 0, r.vehicle_y.getD 0))
        points := (truncate mp (trajRows df vid ts te)).1.map
          (fun r => TPoint.mk r.timestep_time (r.vehicle_x.getD 0) (r.vehicle_y.getD 0)) } := by
  rcases ts with _ | a <;> rcases te with _ | b <;> rfl

theorem loadFiltered_ok {src : CsvSource} {rows : List Row}
    (h : loadFiltered src = Except.ok rows) : rows = dropNull src.rows := by
  rw [loadFiltered] at h
  split at h
  · split at h
    · injection h with h
      exact h.symm
    · cases h
  · cases h

theorem loadFiltered_isOk {src : CsvSource}
    (h1 : "timestep_time" ∈ src.columns) (h2 : "vehicle_id" ∈ src.columns)
    (h3 : "vehicle_x" ∈ src.columns) (h4 : "vehicle_y" ∈ src.columns) :
    loadFiltered src = Except.ok (dropNull src.rows) := by
  rw [loadFiltered, if_pos ⟨h1, h2⟩, if_pos ⟨h3, h4⟩]

theorem foldl_min_le_foldl_max (ts : List ℚ) (t : ℚ) : ts.foldl min t ≤ ts.foldl max t := by
  have h1 : ∀ (ts : List ℚ) (t : ℚ), ts.foldl min t ≤ t := by
    intro ts
    induction ts with
    | nil => intro t; exact le_refl t
    | cons a as ih =>
      intro t
      exact le_trans (ih (min t a)) (min_le_left t a)
  have h2 : ∀ (ts : List ℚ) (t : ℚ), t ≤ ts.foldl max t := by
    intro ts
    induction ts with
    | nil => intro t; exact le_refl t
    | cons a as ih =>
      intro t
      exact le_trans (le_max_left t a) (ih (max t a))
  exact le_trans (h1 ts t) (h2 ts t)

/-! ### Concrete rows used by the spec's test scenarios -/

/-- Scenario rows: vehicle `v1` at times `0, 0.5, 1, 1.5` with increasing lon. -/
def rV1a : Row := ⟨"v1", 0, some 10, some 1⟩

def rV1b : Row := ⟨"v1", 1/2, some 11, some 1⟩

def rV1c : Row := ⟨"v1", 1, some 12, some 1⟩

def rV1d : Row := ⟨"v1", 3/2, some 13, some 1⟩

/-- Scenario A table. -/
def dfScenA : List Row := [rV1a, rV1b, rV1c, rV1d]

/-- A second vehicle with one row. -/
def rV2 : Row := ⟨"v2", 0, some 20, some 2⟩

/-- Scenario B table: two vehicles, one matching row each. -/
def dfScenB : List Row := [rV1a, rV2]

/-- A second `v1` row with the same `(vehicleId, time)` key as `rV1a` but a
different longitude (used to exhibit equal-key rows). -/
def rV1x : Row := ⟨"v1", 0, some 11, some 1⟩

/-- A well-formed CSV source with two equal-key rows. -/
def csvC5 : CsvSource :=
  ⟨["timestep_time", "vehicle_id", "vehicle_x", "vehicle_y"], [rV1a, rV1x]⟩

/-! ### Claims -/

/-- C2: truncation contract.  For every view and `maxPoints`: `maxPoints ≤ 0`
is a pass-through with `truncated = false`; `0 < maxPoints <` row count keeps
exactly the first `maxPoints` rows with `truncated = true`; otherwise the
view is unchanged with `truncated = false`; `truncated = true` iff
`0 < maxPoints` and the pre-truncation row count exceeds it.  The same
`truncate` step is the one `query` and `trajectory` apply to their
pre-truncation views. -/
theorem c2_truncation_contract (q : List Row) (mp : ℤ) :
    (mp ≤ 0 → truncate mp q = (q, false)) ∧
    (0 < mp → mp < (q.length : ℤ) → truncate mp q = (q.take mp.toNat, true)) ∧
    (0 < mp → (q.length : ℤ) ≤ mp → truncate mp q = (q, false)) ∧
    ((truncate mp q).2 = true ↔ 0 < mp ∧ mp < (q.length : ℤ)) ∧
    (∀ (df : List Row) (ts te : ℚ) (bbox : Option (ℚ × ℚ × ℚ × ℚ))
      (ids : Option (List String)) (se : ℚ),
      (query df ts te bbox ids mp se).stats.truncated =
        (truncate mp (pipeline df ts te bbox ids se)).2) ∧
    (∀ (df : List Row) (vid : String) (a b : Option ℚ),
      (trajectory df vid a b mp).truncated = (truncate mp (trajRows df vid a b)).2) := by
  refine ⟨fun h => truncate_nonpos h q, fun h1 h2 => truncate_big h1 h2,
    fun h1 h2 => truncate_small h1 h2, ?_, ?_, ?_⟩
  · rcases Classical.em (0 < mp ∧ mp < (q.length : ℤ)) with hc | hc
    · rw [truncate, if_pos hc]
      simpa using hc
    · rw [truncate, if_neg hc]
      simpa using hc
  · intro df ts te bbox ids se
    rw [query_eq]
  · intro df vid a b
    rw [trajectory_eq]

/-- Witness for C2 at a concrete view and limit: two rows, `maxPoints = 1`
keeps the first row and reports truncation; `maxPoints = 0` is a
pass-through. -/
theorem c2_truncation_contract_witness :
    truncate 1 dfScenB = ([rV1a], true) ∧ truncate 0 dfScenB = (dfScenB, false) := by
  refine ⟨?_, (c2_truncation_contract dfScenB 0).1 (le_refl 0)⟩
  have h := (c2_truncation_contract dfScenB 1).2.1 (by norm_num) (by with_unfolding_all decide)
  rw [h]
  with_unfolding_all decide

/-- C3: sampler contract.  For `sampleEvery ≤ 0` sampling is the identity.
For `sampleEvery > 0` the output is a subsequence of the input (so surviving
rows keep all fields and their relative order), carries no two rows with the
same `(vehicleId, bucket)` key, every surviving row is the first row of the
input bearing its key, and every input row has a representative of its key.
Scenario A: `v1` at times `0, 0.5, 1, 1.5`, `query(0, 2, sampleEvery=1)`
returns the rows at `t = 0` and `t = 1` only. -/
theorem c3_sampler_contract (w : ℚ) (q : List Row) :
    (w ≤ 0 → sample w q = q) ∧
    (0 < w →
      (sample w q).Sublist q ∧
      ((sample w q).map (sampleKey w)).Nodup ∧
      (∀ r ∈ sample w q, q.find? (fun x => decide (sampleKey w x = sampleKey w r)) = some r) ∧
      (∀ r ∈ q, ∃ s ∈ sample w q, sampleKey w s = sampleKey w r)) ∧
    (query dfScenA 0 2 none none 0 1).points.map Point.t = [0, 1] := by
  refine ⟨fun h => sample_nonpos h q, fun hw => ?_, by with_unfolding_all decide⟩
  have hw' : ¬ w ≤ 0 := not_le.2 hw
  rw [sample_pos hw']
  refine ⟨dedupFirst_sublist _ q [], (dedupFirst_keys_nodup q []).1, ?_, ?_⟩
  · intro r hr
    exact (mem_dedupFirst hr).2
  · intro r hr
    exact dedupFirst_complete q [] r hr (by simp)

/-- Witness for C3 at `sampleEvery = 1` on the Scenario A table. -/
theorem c3_sampler_contract_witness :
    (sample 1 dfScenA).Sublist dfScenA ∧ ((sample 1 dfScenA).map (sampleKey 1)).Nodup ∧
      sample 0 dfScenA = dfScenA := by
  have h := (c3_sampler_contract 1 dfScenA).2.1 (by norm_num)
  exact ⟨h.1, h.2.1, (c3_sampler_contract 0 dfScenA).1 (le_refl 0)⟩

/-- C4: sampling is idempotent: re-sampling with the same bucket width
changes nothing. -/
theorem c4_sample_idempotent (w : ℚ) (q : List Row) :
    sample w (sample w q) = sample w q := by
  by_cases h : w ≤ 0
  · rw [sample_nonpos h]
  · rw [sample_pos h, sample_pos h]
    apply dedupFirst_id_of_nodup
    · exact (dedupFirst_keys_nodup q []).1
    · intro k _
      simp

/-- C7: vehicle-id filter policy.  `None` and the empty list both mean "no
identity filtering" (the view is returned unchanged); a non-empty list keeps
exactly the rows whose `vehicleId` is a member, preserving order. -/
theorem c7_vehicle_id_filter (q : List Row) (l : List String) :
    apply_ids none q = q ∧
    apply_ids (some []) q = q ∧
    (l ≠ [] →
      (∀ r, r ∈ apply_ids (some l) q ↔ r ∈ q ∧ r.vehicle_id ∈ l) ∧
      (apply_ids (some l) q).Sublist q) := by
  refine ⟨rfl, rfl, fun hne => ⟨fun r => mem_apply_ids_iff hne, ?_⟩⟩
  rw [apply_ids, if_neg hne]
  exact List.filter_sublist q

/-- Witness for C7 with the concrete non-empty id set `["v1"]`. -/
theorem c7_vehicle_id_filter_witness :
    (rV1a ∈ apply_ids (some ["v1"]) dfScenB ↔ rV1a ∈ dfScenB ∧ rV1a.vehicle_id ∈ ["v1"]) ∧
      (apply_ids (some ["v1"]) dfScenB).Sublist dfScenB := by
  have h := (c7_vehicle_id_filter dfScenB ["v1"]).2.2 (by simp)
  exact ⟨h.1 rV1a, h.2⟩

theorem apply_bbox_nil (bbox : Option (ℚ × ℚ × ℚ × ℚ)) : apply_bbox bbox [] = [] := by
  rcases bbox with _ | ⟨w, s, e, n⟩ <;> rfl

theorem apply_ids_nil (ids : Option (List String)) : apply_ids ids [] = [] := by
  rcases ids with _ | l
  · rfl
  · rw [apply_ids]
    split <;> rfl

theorem sample_nil (se : ℚ) : sample se [] = [] := by
  by_cases h : se ≤ 0
  · rw [sample_nonpos h]
  · rw [sample_pos h]
    rfl

theorem truncate_nil (mp : ℤ) : truncate mp [] = ([], false) := by
  rw [truncate, if_neg]
  rintro ⟨h1, h2⟩
  simp at h2
  omega

theorem pipeline_nil_of_time_empty (df : List Row) (ts te : ℚ)
    (bbox : Option (ℚ × ℚ × ℚ × ℚ)) (ids : Option (List String)) (se : ℚ)
    (h : te < ts) : pipeline df ts te bbox ids se = [] := by
  have ht : apply_time ts te df = [] := by
    rw [apply_time, List.filter_eq_nil_iff]
    intro r _
    simp only [decide_eq_true_eq, not_and]
    intro h1 h2
    exact absurd (le_trans h1 h2) (not_le.2 h)
  rw [pipeline, ht, apply_bbox_nil, apply_ids_nil]
  rw [show dropNull [] = [] from rfl, sample_nil]

/-- C1: the `query` composition order is time filter, bbox filter, id filter,
null drop, sampling, distinct-vehicle count, truncation: `stats.vehicles` is
the number of distinct vehicle ids in the sampled view BEFORE truncation, so
it dominates the number of distinct vehicles among the returned rows.
Scenario B: two vehicles with one matching row each and `maxPoints = 1`
yield `rows = 1`, `vehicles = 2`, `truncated = true`. -/
theorem c1_vehicles_counted_before_truncation :
    (∀ (df : List Row) (ts te : ℚ) (bbox : Option (ℚ × ℚ × ℚ × ℚ))
      (ids : Option (List String)) (mp : ℤ) (se : ℚ),
      (query df ts te bbox ids mp se).stats.vehicles =
        ((pipeline df ts te bbox ids se).map Row.vehicle_id).dedup.length ∧
      (query df ts te bbox ids mp se).points =
        (truncate mp (pipeline df ts te bbox ids se)).1.map toPoint ∧
      (query df ts te bbox ids mp se).stats.rows =
        (query df ts te bbox ids mp se).points.length) ∧
    (∀ (df : List Row) (ts te : ℚ) (bbox : Option (ℚ × ℚ × ℚ × ℚ))
      (ids : Option (List String)) (mp : ℤ) (se : ℚ),
      ((query df ts te bbox ids mp se).points.map Point.vehicleId).dedup.length ≤
        (query df ts te bbox ids mp se).stats.vehicles) ∧
    ((query dfScenB 0 1 none none 1 0).stats.rows = 1 ∧
      (query dfScenB 0 1 none none 1 0).stats.vehicles = 2 ∧
      (query dfScenB 0 1 none none 1 0).stats.truncated = true) := by
  have hveh : ∀ (df : List Row) (ts te : ℚ) (bbox : Option (ℚ × ℚ × ℚ × ℚ))
      (ids : Option (List String)) (mp : ℤ) (se : ℚ),
      (query df ts te bbox ids mp se).stats.vehicles =
        ((pipeline df ts te bbox ids se).map Row.vehicle_id).dedup.length := by
    intro df ts te bbox ids mp se
    have h0 : (query df ts te bbox ids mp se).stats.vehicles =
        (sortStrs (if 0 < (pipeline df ts te bbox ids se).length then
          ((pipeline df ts te bbox ids se).map Row.vehicle_id).dedup else [])).length := rfl
    rw [h0, sortStrs_length]
    split
    · rfl
    · next hlen =>
      have hnil : pipeline df ts te bbox ids se = [] :=
        List.length_eq_zero.1 (Nat.eq_zero_of_not_pos hlen)
      rw [hnil]
      rfl
  refine ⟨fun df ts te bbox ids mp se => ⟨hveh df ts te bbox ids mp se, rfl, rfl⟩,
    ?_, by with_unfolding_all decide⟩
  intro df ts te bbox ids mp se
  rw [hveh]
  have hpts : (query df ts te bbox ids mp se).points =
      (truncate mp (pipeline df ts te bbox ids se)).1.map toPoint := rfl
  rw [hpts, List.map_map]
  have hcomp : Point.vehicleId ∘ toPoint = Row.vehicle_id := rfl
  rw [hcomp]
  exact dedup_length_le_of_sublist ((truncate_fst_sublist mp _).map Row.vehicle_id)

/-- C6: filter soundness.  Every returned point of `query` lies inside the
inclusive time window, inside the bounding box when one was supplied, and
its vehicle id belongs to the id set when a non-empty one was supplied; an
inverted time window (`start > end`) yields an empty result, not an
error. -/
theorem c6_filter_soundness :
    (∀ (df : List Row) (ts te : ℚ) (bbox : Option (ℚ × ℚ × ℚ × ℚ))
      (ids : Option (List String)) (mp : ℤ) (se : ℚ) (p : Point),
      p ∈ (query df ts te bbox ids mp se).points →
        (ts ≤ p.t ∧ p.t ≤ te) ∧
        (∀ w s e n, bbox = some (w, s, e, n) →
          w ≤ p.lon ∧ p.lon ≤ e ∧ s ≤ p.lat ∧ p.lat ≤ n) ∧
        (∀ l, ids = some l → l ≠ [] → p.vehicleId ∈ l)) ∧
    (∀ (df : List Row) (ts te : ℚ) (bbox : Option (ℚ × ℚ × ℚ × ℚ))
      (ids : Option (List String)) (mp : ℤ) (se : ℚ), te < ts →
      (query df ts te bbox ids mp se).points = [] ∧
      (query df ts te bbox ids mp se).vehicleIds = []) := by
  constructor
  · intro df ts te bbox ids mp se p hp
    have hp' : p ∈ (truncate mp (pipeline df ts te bbox ids se)).1.map toPoint := hp
    obtain ⟨r, hr, rfl⟩ := List.mem_map.1 hp'
    have hrp : r ∈ pipeline df ts te bbox ids se := (truncate_fst_sublist mp _).subset hr
    obtain ⟨_, htime, hnn, hbb, hids⟩ := mem_pipeline hrp
    refine ⟨htime, ?_, hids⟩
    intro w s e n hb
    obtain ⟨x, y, hx, hy, h1, h2, h3, h4⟩ := inBox_eq_true (hbb w s e n hb)
    have hlon : (toPoint r).lon = x := by
      show r.vehicle_x.getD 0 = x
      rw [hx]
      rfl
    have hlat : (toPoint r).lat = y := by
      show r.vehicle_y.getD 0 = y
      rw [hy]
      rfl
    rw [hlon, hlat]
    exact ⟨h1, h2, h3, h4⟩
  · intro df ts te bbox ids mp se h
    have hpip := pipeline_nil_of_time_empty df ts te bbox ids se h
    constructor
    · show (truncate mp (pipeline df ts te bbox ids se)).1.map toPoint = []
      rw [hpip, truncate_nil]
      rfl
    · show sortStrs (if 0 < (pipeline df ts te bbox ids se).length then
        ((pipeline df ts te bbox ids se).map Row.vehicle_id).dedup else []) = []
      rw [hpip]
      rfl

/-- Witness for C6: a concrete returned point satisfies the window, and an
inverted window returns nothing. -/
theorem c6_filter_soundness_witness :
    ((0 : ℚ) ≤ (toPoint rV1a).t ∧ (toPoint rV1a).t ≤ 1) ∧
      (query dfScenB 1 0 none none 0 0).points = [] := by
  refine ⟨(c6_filter_soundness.1 dfScenB 0 1 none none 0 0 (toPoint rV1a) ?_).1,
    (c6_filter_soundness.2 dfScenB 1 0 none none 0 0 ?_).1⟩
  · with_unfolding_all decide
  · norm_num

theorem charList_lt_irrefl (l : List Char) : ¬ l < l :=
  lt_irrefl l

/-- Rows of the same vehicle that are `keyLE`-ordered are time-ordered. -/
theorem keyLE_time_of_same_id {a b : Row} (h : keyLE a b)
    (ha : a.vehicle_id = b.vehicle_id) : a.timestep_time ≤ b.timestep_time := by
  rcases h with h | h
  · rw [ha] at h
    exact absurd h (charList_lt_irrefl _)
  · exact h.2

/-- C8: `trajectory` applies the time filter iff BOTH bounds are supplied;
one bound alone behaves exactly like no bounds.  With both bounds every
returned point lies in the window.  With no bounds and no limit, the result
is not truncated, contains every non-null row of the vehicle, and (on a
table sorted by `(vehicleId, time)`) is in ascending time order. -/
theorem c8_trajectory_time_filter :
    (∀ (df : List Row) (vid : String) (a : ℚ) (mp : ℤ),
      trajectory df vid (some a) none mp = trajectory df vid none none mp) ∧
    (∀ (df : List Row) (vid : String) (b : ℚ) (mp : ℤ),
      trajectory df vid none (some b) mp = trajectory df vid none none mp) ∧
    (∀ (df : List Row) (vid : String) (a b : ℚ) (mp : ℤ) (p : TPoint),
      p ∈ (trajectory df vid (some a) (some b) mp).points → a ≤ p.t ∧ p.t ≤ b) ∧
    (∀ (df : List Row) (vid : String) (mp : ℤ), mp ≤ 0 →
      (trajectory df vid none none mp).truncated = false ∧
      (∀ r ∈ df, r.vehicle_id = vid → nnCoords r = true →
        TPoint.mk r.timestep_time (r.vehicle_x.getD 0) (r.vehicle_y.getD 0) ∈
          (trajectory df vid none none mp).points) ∧
      (df.Pairwise keyLE →
        ((trajectory df vid none none mp).points.map TPoint.t).Pairwise (· ≤ ·))) := by
  refine ⟨fun df vid a mp => rfl, fun df vid b mp => rfl, ?_, ?_⟩
  · intro df vid a b mp p hp
    have hp' : p ∈ (truncate mp (trajRows df vid (some a) (some b))).1.map
        (fun r => TPoint.mk r.timestep_time (r.vehicle_x.getD 0) (r.vehicle_y.getD 0)) := hp
    obtain ⟨r, hr, rfl⟩ := List.mem_map.1 hp'
    have hr2 : r ∈ trajRows df vid (some a) (some b) := (truncate_fst_sublist mp _).subset hr
    have hr3 : r ∈ apply_time a b (dropNull (df.filter (fun r => decide (r.vehicle_id = vid)))) := hr2
    obtain ⟨_, h1, h2⟩ := mem_apply_time hr3
    exact ⟨h1, h2⟩
  · intro df vid mp hmp
    have hview : trajRows df vid none none =
        dropNull (df.filter (fun r => decide (r.vehicle_id = vid))) := rfl
    have htr : truncate mp (trajRows df vid none none) = (trajRows df vid none none, false) :=
      truncate_nonpos hmp _
    refine ⟨?_, ?_, ?_⟩
    · show (truncate mp (trajRows df vid none none)).2 = false
      rw [htr]
    · intro r hr hid hnn
      show TPoint.mk r.timestep_time (r.vehicle_x.getD 0) (r.vehicle_y.getD 0) ∈
        (truncate mp (trajRows df vid none none)).1.map
          (fun r => TPoint.mk r.timestep_time (r.vehicle_x.getD 0) (r.vehicle_y.getD 0))
      rw [htr]
      refine List.mem_map.2 ⟨r, ?_, rfl⟩
      rw [hview, dropNull, List.mem_filter]
      exact ⟨List.mem_filter.2 ⟨hr, by simp [hid]⟩, hnn⟩
    · intro hsorted
      show ((truncate mp (trajRows df vid none none)).1.map
        (fun r => TPoint.mk r.timestep_time (r.vehicle_x.getD 0) (r.vehicle_y.getD 0))).map
          TPoint.t |>.Pairwise (· ≤ ·)
      rw [htr, List.map_map]
      have hp1 : (trajRows df vid none none).Pairwise keyLE := by
        rw [hview, dropNull]
        exact List.Pairwise.sublist ((List.filter_sublist _).trans (List.filter_sublist _)) hsorted
      have hp2 : (trajRows df vid none none).Pairwise
          (fun r1 r2 => r1.timestep_time ≤ r2.timestep_time) := by
        refine hp1.imp_of_mem ?_
        intro r1 r2 h1 h2 hk
        have hv1 : r1.vehicle_id = vid := by
          rw [hview, dropNull] at h1
          have := (List.mem_filter.1 (List.mem_filter.1 h1).1).2
          exact of_decide_eq_true this
        have hv2 : r2.vehicle_id = vid := by
          rw [hview, dropNull] at h2
          have := (List.mem_filter.1 (List.mem_filter.1 h2).1).2
          exact of_decide_eq_true this
        exact keyLE_time_of_same_id hk (hv1.trans hv2.symm)
      exact hp2.map _ (fun r1 r2 h => h)

/-- Witness for C8: Scenario D on the concrete two-vehicle table. -/
theorem c8_trajectory_time_filter_witness :
    (trajectory dfScenB "v1" none none 0).truncated = false ∧
      ((trajectory dfScenB "v1" none none 0).points.map TPoint.t).Pairwise (· ≤ ·) ∧
      trajectory dfScenB "v1" (some 0) none 0 = trajectory dfScenB "v1" none none 0 := by
  have h := c8_trajectory_time_filter.2.2.2 dfScenB "v1" 0 (le_refl 0)
  exact ⟨h.1, h.2.2 (by with_unfolding_all decide),
    c8_trajectory_time_filter.1 dfScenB "v1" 0 0⟩

/-- Scenario E source: the `vehicle_y` column is absent. -/
def csvScenE : CsvSource :=
  ⟨["timestep_time", "vehicle_id", "vehicle_x"], [rV1a]⟩

/-- A well-formed single-row source. -/
def csvOne : CsvSource :=
  ⟨["timestep_time", "vehicle_id", "vehicle_x", "vehicle_y"], [rV1a]⟩

/-- C9: loading fails with the schema error when any of the four required
columns is absent; on success the retained rows are exactly the input rows
with non-null coordinates, a row with a null coordinate is in no possible
load result, and every point any `query` returns originates from a
non-null-coordinate row of the queried table. -/
theorem c9_schema_error_and_null_drop (src : CsvSource) :
    (("timestep_time" ∉ src.columns ∨ "vehicle_id" ∉ src.columns ∨
      "vehicle_x" ∉ src.columns ∨ "vehicle_y" ∉ src.columns) →
      loadFiltered src = Except.error LoadError.SchemaError) ∧
    (∀ rows, loadFiltered src = Except.ok rows →
      rows = dropNull src.rows ∧ ∀ r ∈ rows, nnCoords r = true) ∧
    (∀ out, LoadsTo src (Except.ok out) →
      ∀ r ∈ src.rows, nnCoords r = false → r ∉ out) ∧
    (∀ (df : List Row) (ts te : ℚ) (bbox : Option (ℚ × ℚ × ℚ × ℚ))
      (ids : Option (List String)) (mp : ℤ) (se : ℚ) (p : Point),
      p ∈ (query df ts te bbox ids mp se).points →
        ∃ r ∈ df, nnCoords r = true ∧ toPoint r = p) := by
  refine ⟨?_, ?_, ?_, ?_⟩
  · intro h
    by_cases h12 : "timestep_time" ∈ src.columns ∧ "vehicle_id" ∈ src.columns
    · have hn : ¬("vehicle_x" ∈ src.columns ∧ "vehicle_y" ∈ src.columns) := by
        rcases h with h | h | h | h
        · exact absurd h12.1 h
        · exact absurd h12.2 h
        · exact fun hc => h hc.1
        · exact fun hc => h hc.2
      rw [loadFiltered, if_pos h12, if_neg hn]
    · rw [loadFiltered, if_neg h12]
  · intro rows h
    have hd := loadFiltered_ok h
    subst hd
    exact ⟨rfl, fun r hr => (mem_dropNull hr).2⟩
  · intro out hload r hr hnn hmem
    cases hlf : loadFiltered src with
    | error e => exact Except.noConfusion (hload.1 e hlf)
    | ok rows =>
      obtain ⟨out', hout, hperm, _⟩ := hload.2 rows hlf
      injection hout with hout
      subst hout
      have hd := loadFiltered_ok hlf
      subst hd
      have : nnCoords r = true := (mem_dropNull (hperm.mem_iff.1 hmem)).2
      rw [hnn] at this
      cases this
  · intro df ts te bbox ids mp se p hp
    have hp' : p ∈ (truncate mp (pipeline df ts te bbox ids se)).1.map toPoint := hp
    obtain ⟨r, hr, rfl⟩ := List.mem_map.1 hp'
    obtain ⟨hdf, _, hnn, _, _⟩ := mem_pipeline ((truncate_fst_sublist mp _).subset hr)
    exact ⟨r, hdf, hnn, rfl⟩

/-- Witness for C9: Scenario E (no `vehicle_y` column) fails with the schema
error, and a loaded row is non-null. -/
theorem c9_schema_error_and_null_drop_witness :
    loadFiltered csvScenE = Except.error LoadError.SchemaError ∧
      (∀ r ∈ dropNull csvOne.rows, nnCoords r = true) := by
  constructor
  · refine (c9_schema_error_and_null_drop csvScenE).1 ?_
    right; right; right
    with_unfolding_all decide
  · intro r hr
    exact ((c9_schema_error_and_null_drop csvOne).2.1 (dropNull csvOne.rows)
      (by with_unfolding_all rfl)).2 r hr

/-- C10: a source whose retained row set is empty cannot be constructed into
a table (the `float(min)` conversion raises), so every successfully
constructed table has at least one row and `minTime ≤ maxTime`. -/
theorem c10_construction_nonempty (src : CsvSource) (df : List Row) (st : TableStats) :
    InitOf src df st →
      dropNull src.rows ≠ [] ∧ 1 ≤ st.row_count ∧ st.min_time ≤ st.max_time := by
  rintro ⟨hload, hstats⟩
  cases hlf : loadFiltered src with
  | error e => exact Except.noConfusion (hload.1 e hlf)
  | ok rows =>
    obtain ⟨out, hout, hperm, _⟩ := hload.2 rows hlf
    injection hout with hout
    subst hout
    have hd := loadFiltered_ok hlf
    subst hd
    rcases hdf : df.map Row.timestep_time with _ | ⟨t, ts⟩
    · rw [mkStats, hdf] at hstats
      cases hstats
    · have hdfne : df ≠ [] := by
        intro h
        rw [h] at hdf
        cases hdf
      rw [mkStats, hdf] at hstats
      injection hstats with hstats
      subst hstats
      refine ⟨?_, List.length_pos.2 hdfne, foldl_min_le_foldl_max ts t⟩
      intro h
      rw [h] at hperm
      exact hdfne hperm.eq_nil

/-- Witness for C10: a well-formed one-row source constructs a table with
one row and equal min/max time. -/
theorem c10_construction_nonempty_witness :
    dropNull csvOne.rows ≠ [] ∧ 1 ≤ (TableStats.mk 0 0 1 1).row_count ∧
      (TableStats.mk 0 0 1 1).min_time ≤ (TableStats.mk 0 0 1 1).max_time := by
  apply c10_construction_nonempty csvOne [rV1a] (TableStats.mk 0 0 1 1)
  have hlf : loadFiltered csvOne = Except.ok [rV1a] := by with_unfolding_all rfl
  refine ⟨⟨?_, ?_⟩, ?_⟩
  · intro e he
    rw [hlf] at he
    exact Except.noConfusion he
  · intro rows hr
    rw [hlf] at hr
    injection hr with hr
    subst hr
    exact ⟨[rV1a], rfl, List.Perm.refl _, List.pairwise_singleton _ _⟩
  · with_unfolding_all rfl

/-- The claim C5 as the spec states it: every table the Loader can produce
preserves the original relative order of rows with equal
`(vehicleId, time)` keys (a stable sort). -/
def ClaimC5Stable : Prop :=
  ∀ (src : CsvSource) (out : List Row), LoadsTo src (Except.ok out) →
    StableOn (dropNull src.rows) out

/-- The load relation admits the key-sorted but order-reversed table for the
two equal-key rows of `csvC5`. -/
theorem loadsTo_csvC5_rev : LoadsTo csvC5 (Except.ok [rV1x, rV1a]) := by
  have hlf : loadFiltered csvC5 = Except.ok [rV1a, rV1x] := by with_unfolding_all rfl
  constructor
  · intro e he
    rw [hlf] at he
    exact Except.noConfusion he
  · intro rows hr
    rw [hlf] at hr
    injection hr with hr
    subst hr
    refine ⟨[rV1x, rV1a], rfl, List.Perm.swap rV1a rV1x [], ?_⟩
    with_unfolding_all decide

/-- Counterexample to C5: `df.sort` runs with `maintain_order=False`, so for
the source with two rows sharing the key `("v1", 0)` the reversed output is
a legitimate load result, and it does not preserve the relative order of
the equal-key rows. -/
theorem c5_stability_counterexample : ¬ ClaimC5Stable := by
  intro h
  have hst := h csvC5 [rV1x, rV1a] loadsTo_csvC5_rev ("v1", 0)
  have hne : ([rV1x, rV1a].filter (fun r => decide (rowKey r = ("v1", 0)))) ≠
      ((dropNull csvC5.rows).filter (fun r => decide (rowKey r = ("v1", 0)))) := by
    with_unfolding_all decide
  exact hne hst

/-- C5 amended: every table the Loader produces is sorted by
`(vehicleId lexicographic, time ascending)` and consists of exactly the
retained (non-null-coordinate) input rows; the relative order of rows with
equal `(vehicleId, time)` keys is NOT guaranteed, because the sort is not
requested to be order-maintaining. -/
theorem c5_load_sorted_permutation (src : CsvSource) (out : List Row)
    (h : LoadsTo src (Except.ok out)) :
    out.Pairwise keyLE ∧ out.Perm (dropNull src.rows) ∧
      (∀ r : Row, r ∈ out ↔ r ∈ src.rows ∧ nnCoords r = true) := by
  cases hlf : loadFiltered src with
  | error e => exact Except.noConfusion (h.1 e hlf)
  | ok rows =>
    obtain ⟨out', hout, hperm, hsorted⟩ := h.2 rows hlf
    injection hout with hout
    subst hout
    have hd := loadFiltered_ok hlf
    subst hd
    refine ⟨hsorted, hperm, ?_⟩
    intro r
    rw [hperm.mem_iff]
    constructor
    · exact fun hr => mem_dropNull hr
    · rintro ⟨h1, h2⟩
      rw [dropNull, List.mem_filter]
      exact ⟨h1, h2⟩

/-- Witness for the amended C5 on the concrete source `csvC5`. -/
theorem c5_load_sorted_permutation_witness :
    ([rV1x, rV1a] : List Row).Pairwise keyLE ∧
      ([rV1x, rV1a] : List Row).Perm (dropNull csvC5.rows) ∧
      (∀ r : Row, r ∈ ([rV1x, rV1a] : List Row) ↔ r ∈ csvC5.rows ∧ nnCoords r = true) :=
  c5_load_sorted_permutation csvC5 [rV1x, rV1a] loadsTo_csvC5_rev
